import Mathlib

/-!
Verification of the VDS (Video Distribution Server) manifest-driven download
subsystem against its natural-language specification.

The development shallowly embeds the Rust sources of the `vds-server` crate:

* `src/manifest.rs` — manifest data model and its serde (de)serialization,
  modelled at the JSON-value level (the textual layer of `serde_json` is an
  external crate; a fueled JSON text parser and a compact renderer are
  provided for evaluating concrete documents);
* `src/db/mod.rs` — the catalog operations over rows of the `videos` table;
* `src/downloader/mod.rs` — the manifest poller decision (`check_updates`);
* `src/downloader/tasks.rs` — the download worker (`download_job_task`) and
  the supervisor's backoff update;
* `src/api/user.rs` — the content/view/manifest HTTP endpoints.

Machine integers (`u32`, `u64`) are modelled as `Nat` with explicit bounds
where the source can overflow; durations multiplied by an `f64` factor are
modelled as exact rationals (`ℚ`), which agrees with the source on the
concrete inputs used here. Text is modelled as `List Char`.
-/

namespace VDS

/-- Text is modelled as a list of characters (Rust `String` / `&str`). -/
abbrev Text := List Char

/-! ### Decimal numerals

Models Rust's `Display`/`parse` for unsigned integers, used by
`Version`'s `vMAJOR.MINOR.REVISION` form and by `chrono`'s `%Y-%m-%d`
date rendering. Implemented with structural fuel recursion so that the
kernel can evaluate it on concrete inputs. -/

/-- The character for a single decimal digit value. -/
def digitChar : Nat → Char
  | 0 => '0' | 1 => '1' | 2 => '2' | 3 => '3' | 4 => '4'
  | 5 => '5' | 6 => '6' | 7 => '7' | 8 => '8' | _ => '9'

/-- Is `c` an ASCII decimal digit? -/
def isDigitCh (c : Char) : Bool := 48 ≤ c.toNat && c.toNat ≤ 57

/-- Little-endian decimal digits of `n`, with explicit fuel. -/
def natDigitsAux : Nat → Nat → List Nat
  | 0, _ => []
  | _ + 1, 0 => []
  | fuel + 1, n + 1 => ((n + 1) % 10) :: natDigitsAux fuel ((n + 1) / 10)

/-- Little-endian decimal digits of `n` (`[]` for `0`). -/
def natDigitsLE (n : Nat) : List Nat := natDigitsAux n n

/-- Value of a little-endian digit list. -/
def valLE : List Nat → Nat
  | [] => 0
  | d :: ds => d + 10 * valLE ds

/-- Decimal rendering of `n`, as Rust's `Display` for unsigned integers. -/
def natRender (n : Nat) : Text :=
  if n = 0 then ['0'] else ((natDigitsLE n).reverse).map digitChar

/-- Big-endian value of a digit-character list (accumulator style). -/
def digitsVal (t : Text) : Nat := t.foldl (fun acc c => acc * 10 + (c.toNat - 48)) 0

/-- Parse a decimal numeral: nonempty, all ASCII digits.  Models
`str::parse::<u32>`/`::<u64>` on inputs already matched by `\d+`
(overflow bounds are imposed by the callers). -/
def parseNat (t : Text) : Option Nat :=
  if !t.isEmpty && t.all isDigitCh then some (digitsVal t) else none

/-! ### Splitting on a separator character

Models the group structure imposed by the regexes
`^v(\d+)\.(\d+)\.(\d+)$` (version) and `%Y-%m-%d` (date). -/

/-- Split a text on a separator character (like Rust's `str::split`). -/
def splitOnChar (sep : Char) : Text → List Text
  | [] => [[]]
  | c :: cs =>
    if c = sep then [] :: splitOnChar sep cs
    else
      match splitOnChar sep cs with
      | [] => [[c]]
      | t :: ts => (c :: t) :: ts

/-! ### Version (`src/vds-server/src/manifest.rs`, `Version` and its serde impls)

`Version { major, minor, revision : u32 }`; text form `vMAJOR.MINOR.REVISION`
matched by `^v(\d+)\.(\d+)\.(\d+)$` with each capture parsed as `u32`. -/

/-- `manifest.rs` `Version`: triple of `u32` components (modelled as `Nat`,
bounded by `2^32` where the source's `u32` parse imposes it). -/
structure Version where
  major : Nat
  minor : Nat
  revision : Nat
deriving DecidableEq, Repr

/-- Serialization of a `Version` (`serde::Serialize for Version`):
`format!("v{}.{}.{}", major, minor, revision)`. -/
def renderVersion (v : Version) : Text :=
  'v' :: (natRender v.major ++ ('.' :: (natRender v.minor ++ ('.' :: natRender v.revision))))

/-- `u32::MAX + 1`: `str::parse::<u32>` fails at or above this. -/
def u32Bound : Nat := 4294967296

/-- `u64::MAX + 1`: bound for `file_size`. -/
def u64Bound : Nat := 18446744073709551616

/-- Deserialization of a `Version` (`version::Visitor::visit_str`): match
`^v(\d+)\.(\d+)\.(\d+)$`, parse the three captures as `u32`. -/
def parseVersion (t : Text) : Option Version :=
  match t with
  | 'v' :: rest =>
    match splitOnChar '.' rest with
    | [a, b, c] => do
      let ma ← parseNat a
      let mb ← parseNat b
      let mc ← parseNat c
      if ma < u32Bound ∧ mb < u32Bound ∧ mc < u32Bound then
        some ⟨ma, mb, mc⟩
      else
        none
    | _ => none
  | _ => none

/-- The components are in `u32` range. -/
def validVersionB (v : Version) : Bool :=
  decide (v.major < u32Bound) && decide (v.minor < u32Bound) && decide (v.revision < u32Bound)

/-! ### Calendar dates (`chrono::NaiveDate` as used by `ManifestFile.date`)

Modelled from the external `chrono` crate: serde form is ISO-8601
`%Y-%m-%d` (zero-padded year of four digits for years `0..=9999`, the
range modelled here), parsing validates the proleptic Gregorian
calendar. Ordering is calendar order, i.e. lexicographic on
(year, month, day). -/

/-- A calendar date (modelling `chrono::NaiveDate` for years `0..=9999`). -/
structure DateYMD where
  year : Nat
  month : Nat
  day : Nat
deriving DecidableEq, Repr

/-- Gregorian leap-year rule. -/
def isLeapYear (y : Nat) : Bool := (y % 4 == 0 && y % 100 != 0) || y % 400 == 0

/-- Days in a month of the proleptic Gregorian calendar. -/
def daysInMonth (y m : Nat) : Nat :=
  if m = 2 then (if isLeapYear y then 29 else 28)
  else if m = 4 ∨ m = 6 ∨ m = 9 ∨ m = 11 then 30
  else 31

/-- Is this a real calendar date (with the year range modelled here)? -/
def validDateB (d : DateYMD) : Bool :=
  decide (d.year ≤ 9999) && decide (1 ≤ d.month) && decide (d.month ≤ 12) &&
    decide (1 ≤ d.day) && decide (d.day ≤ daysInMonth d.year d.month)

/-- Left-pad a numeral with zeros to width `w`. -/
def padZeros (w : Nat) (t : Text) : Text := List.replicate (w - t.length) '0' ++ t

/-- ISO-8601 rendering `%Y-%m-%d` of a date. -/
def renderDate (d : DateYMD) : Text :=
  padZeros 4 (natRender d.year) ++
    ('-' :: (padZeros 2 (natRender d.month) ++ ('-' :: padZeros 2 (natRender d.day))))

/-- ISO-8601 parsing of a date, validating the calendar. -/
def parseDate (t : Text) : Option DateYMD :=
  match splitOnChar '-' t with
  | [ys, ms, ds] => do
    let y ← parseNat ys
    let m ← parseNat ms
    let d ← parseNat ds
    if validDateB ⟨y, m, d⟩ then some ⟨y, m, d⟩ else none
  | _ => none

/-- Calendar (lexicographic) strict order on dates, `chrono::NaiveDate`'s `Ord`. -/
def dateLt (a b : DateYMD) : Bool :=
  decide (a.year < b.year) ||
    (a.year == b.year && (decide (a.month < b.month) ||
      (a.month == b.month && decide (a.day < b.day))))

/-- Calendar (lexicographic) non-strict order on dates. -/
def dateLe (a b : DateYMD) : Bool := dateLt a b || a == b

/-! ### Sha256, UUID, URI string forms -/

/-- Is `c` a lowercase hexadecimal digit? -/
def isHexLower (c : Char) : Bool :=
  isDigitCh c || (97 ≤ c.toNat && c.toNat ≤ 102)

/-- `manifest.rs` `Sha256` validity (`TryFrom<&str>`): exactly the regex
`^[0-9a-f]{64}$`. The newtype stores the text form itself. -/
def validShaB (t : Text) : Bool := t.length == 64 && t.all isHexLower

/-- `sha256::Visitor::visit_str`: accept exactly the valid text forms. -/
def parseSha (t : Text) : Option Text := if validShaB t then some t else none

/-- Hyphenated lowercase UUID text form `8-4-4-4-12` (modelled from the
external `uuid` crate: serde serializes to this form and accepts it back). -/
def validUuidB (t : Text) : Bool :=
  ((splitOnChar '-' t).map List.length == [8, 4, 4, 4, 12]) &&
    (splitOnChar '-' t).all (fun g => g.all isHexLower)

/-- UUID parsing, modelled as validation of the canonical text form. -/
def parseUuid (t : Text) : Option Text := if validUuidB t then some t else none

/-- URI validity (modelled from the external `http::Uri` parser: the manifest
claims only need that serialization is the textual form itself, so a URI is
modelled by its text, validated as nonempty without spaces). -/
def validUriB (t : Text) : Bool := !t.isEmpty && t.all (fun c => c != ' ')

/-- `uri::Visitor::visit_str`, modelled as validation of the text form. -/
def parseUri (t : Text) : Option Text := if validUriB t then some t else none

/-! ### Manifest data model (`src/vds-server/src/manifest.rs`)

`Video`, `Section`, `ManifestFile` with derived structural equality.
UUIDs, URIs and SHA-256 digests are carried in their canonical text
forms (see the leaf parsers above). -/

/-- `manifest.rs` `Video`: fields in declaration order
`name, id, uri, sha256, file_size`. -/
structure MVideo where
  name : Text
  id : Text
  uri : Text
  sha256 : Text
  fileSize : Nat
deriving DecidableEq, Repr

/-- `manifest.rs` `Section`: a named, ordered list of videos. -/
structure MSection where
  name : Text
  content : List MVideo
deriving DecidableEq, Repr

/-- `manifest.rs` `ManifestFile`: fields in declaration order
`name, date, version, sections`. -/
structure ManifestFile where
  name : Text
  date : DateYMD
  version : Version
  sections : List MSection
deriving DecidableEq, Repr

/-! ### JSON values (`serde_json::Value` restricted to what the manifest uses)

A mutual inductive (rather than a nested `List Json`) so that all
functions over it are structural and kernel-evaluable. -/

mutual

/-- A JSON value. -/
inductive Json where
  | null : Json
  | bool (b : Bool) : Json
  | num (n : Nat) : Json
  | str (s : Text) : Json
  | arr (xs : JsonArr) : Json
  | obj (fs : JsonObj) : Json

/-- A JSON array (a list of JSON values). -/
inductive JsonArr where
  | nil : JsonArr
  | cons (hd : Json) (tl : JsonArr) : JsonArr

/-- A JSON object (an ordered list of key/value pairs). -/
inductive JsonObj where
  | nil : JsonObj
  | cons (key : Text) (va : Json) (tl : JsonObj) : JsonObj

end

/-- First value under key `k`, as serde's field lookup (serde additionally
errors on a duplicate known field; serialized output never has one). -/
def findField (k : Text) : JsonObj → Option Json
  | .nil => none
  | .cons k2 v rest => if k = k2 then some v else findField k rest

/-- Expect a JSON string. -/
def getStr : Json → Option Text
  | .str s => some s
  | _ => none

/-- Expect a JSON number (a `u64` for `file_size`). -/
def getNum : Json → Option Nat
  | .num n => some n
  | _ => none

/-- Expect a JSON array. -/
def getArr : Json → Option JsonArr
  | .arr xs => some xs
  | _ => none

/-! ### Serialization (`serde::Serialize` derives in `manifest.rs`)

Canonical JSON with fields in declaration order, sections and content
preserved in input order. -/

/-- Serialize one video. -/
def videoToJson (v : MVideo) : Json :=
  .obj (.cons "name".data (.str v.name)
    (.cons "id".data (.str v.id)
      (.cons "uri".data (.str v.uri)
        (.cons "sha256".data (.str v.sha256)
          (.cons "file_size".data (.num v.fileSize) .nil)))))

/-- Serialize a list of videos in order. -/
def videosToJson : List MVideo → JsonArr
  | [] => .nil
  | v :: vs => .cons (videoToJson v) (videosToJson vs)

/-- Serialize one section. -/
def sectionToJson (s : MSection) : Json :=
  .obj (.cons "name".data (.str s.name)
    (.cons "content".data (.arr (videosToJson s.content)) .nil))

/-- Serialize a list of sections in order. -/
def sectionsToJson : List MSection → JsonArr
  | [] => .nil
  | s :: ss => .cons (sectionToJson s) (sectionsToJson ss)

/-- Serialize a whole manifest (`serde_json::to_value` of a `ManifestFile`). -/
def manifestToJson (m : ManifestFile) : Json :=
  .obj (.cons "name".data (.str m.name)
    (.cons "date".data (.str (renderDate m.date))
      (.cons "version".data (.str (renderVersion m.version))
        (.cons "sections".data (.arr (sectionsToJson m.sections)) .nil))))

/-! ### Parsing (`serde::Deserialize` derives and visitors in `manifest.rs`)

Strict on required fields and leaf grammar; unknown fields are ignored
(field lookup by name); `none` models a serde error
(`ParseError`). There is no duplicate-ID check anywhere in the source. -/

/-- Parse one video object. -/
def videoFromJson (j : Json) : Option MVideo :=
  match j with
  | .obj fs => do
    let nm ← (findField "name".data fs).bind getStr
    let idv ← ((findField "id".data fs).bind getStr).bind parseUuid
    let uriv ← ((findField "uri".data fs).bind getStr).bind parseUri
    let shav ← ((findField "sha256".data fs).bind getStr).bind parseSha
    let sz ← (findField "file_size".data fs).bind getNum
    if sz < u64Bound then some ⟨nm, idv, uriv, shav, sz⟩ else none
  | _ => none

/-- Parse an array of videos. -/
def videosFromJson : JsonArr → Option (List MVideo)
  | .nil => some []
  | .cons j rest => do
    let v ← videoFromJson j
    let vs ← videosFromJson rest
    some (v :: vs)

/-- Parse one section object. -/
def sectionFromJson (j : Json) : Option MSection :=
  match j with
  | .obj fs => do
    let nm ← (findField "name".data fs).bind getStr
    let content ← ((findField "content".data fs).bind getArr).bind videosFromJson
    some ⟨nm, content⟩
  | _ => none

/-- Parse an array of sections. -/
def sectionsFromJson : JsonArr → Option (List MSection)
  | .nil => some []
  | .cons j rest => do
    let s ← sectionFromJson j
    let ss ← sectionsFromJson rest
    some (s :: ss)

/-- Parse a whole manifest document (`serde_json::from_slice::<ManifestFile>`
at the JSON-value layer). -/
def manifestFromJson (j : Json) : Option ManifestFile :=
  match j with
  | .obj fs => do
    let nm ← (findField "name".data fs).bind getStr
    let date ← ((findField "date".data fs).bind getStr).bind parseDate
    let ver ← ((findField "version".data fs).bind getStr).bind parseVersion
    let sections ← ((findField "sections".data fs).bind getArr).bind sectionsFromJson
    some ⟨nm, date, ver, sections⟩
  | _ => none

/-! ### Validity of a manifest -/

/-- A video with well-formed leaf fields. -/
def validVideoB (v : MVideo) : Bool :=
  validUuidB v.id && validUriB v.uri && validShaB v.sha256 && decide (v.fileSize < u64Bound)

/-- All leaf fields of the manifest are well-formed (duplicate IDs allowed). -/
def validManifestLeavesB (m : ManifestFile) : Bool :=
  validDateB m.date && validVersionB m.version &&
    m.sections.all (fun s => s.content.all validVideoB)

/-- All video IDs of the manifest, in document order. -/
def manifestIds (m : ManifestFile) : List Text :=
  (m.sections.map (fun s => s.content.map MVideo.id)).flatten

/-- A valid manifest: well-formed leaves and unique IDs across the document. -/
def validManifestB (m : ManifestFile) : Bool :=
  validManifestLeavesB m && decide (manifestIds m).Nodup

/-! ### Catalog rows and operations (`src/vds-server/src/db/mod.rs`, `db/models.rs`)

One `videos` table with primary key `id`; the `download_status` column is
the enum `Pending=0, Failed=1, InProgress=2, Downloaded=3`. -/

/-- The `download_status` column (`db/models.rs` constants `0..=3`). -/
inductive StatusCode where
  | pending
  | failed
  | inProgress
  | downloaded
deriving DecidableEq, Repr

/-- One row of the `videos` table: columns `id`, `name`, `file_size`,
`downloaded_size`, `download_status`, `message`, `file_path`, `view_count`. -/
structure Row where
  id : Text
  name : Text
  fileSize : Nat
  downloadedSize : Nat
  downloadStatus : StatusCode
  message : Text
  filePath : Text
  viewCount : Nat
deriving DecidableEq, Repr

/-- The `videos` table (rows in insertion order; the primary key keeps ids
unique, which `insertVideo` maintains). -/
abbrev Catalog := List Row

/-- `Database::find_video`: select the row with the given id (`none` models
diesel's `NotFound`). -/
def findVideo (c : Catalog) (id : Text) : Option Row :=
  c.find? (fun r => r.id == id)

/-- `Database::insert_video`: violates the primary key (an error, table
unchanged) if the id exists; otherwise inserts a row with the schema
defaults `Pending`, `0` downloaded bytes, empty message and path, `0` views. -/
def insertVideo (c : Catalog) (id name : Text) (fileSize : Nat) : Catalog :=
  if (findVideo c id).isSome then c
  else c ++ [⟨id, name, fileSize, 0, .pending, [], [], 0⟩]

/-- `Database::update_download_progress` (`db/mod.rs` 307-327): UPDATE the
row to `InProgress` with the given `downloaded_size` (stored as given, with
no clamp against `file_size`) and an empty message. -/
def updateDownloadProgress (c : Catalog) (id : Text) (downloadedSize : Nat) : Catalog :=
  c.map fun r =>
    if r.id = id then
      { r with downloadStatus := .inProgress, downloadedSize := downloadedSize, message := [] }
    else r

/-- `Database::set_download_failed`: UPDATE the row to `Failed` with the
given message. -/
def setDownloadFailed (c : Catalog) (id : Text) (msg : Text) : Catalog :=
  c.map fun r =>
    if r.id = id then { r with downloadStatus := .failed, message := msg } else r

/-- `Database::set_downloaded` (`db/mod.rs` 351-371): UPDATE the row to
`Downloaded`, copy `file_size` into `downloaded_size`, clear the message and
store the file path. -/
def setDownloaded (c : Catalog) (id : Text) (filePath : Text) : Catalog :=
  c.map fun r =>
    if r.id = id then
      { r with downloadStatus := .downloaded, downloadedSize := r.fileSize,
               message := [], filePath := filePath }
    else r

/-- `Database::increment_view_count` (`db/mod.rs` 291-303): unconditional
UPDATE `view_count = view_count + 1` on the row with the given id; the
RETURNING row is read back by the caller via `findVideo`. -/
def incrementViewCount (c : Catalog) (id : Text) : Catalog :=
  c.map fun r => if r.id = id then { r with viewCount := r.viewCount + 1 } else r

/-- Does the manifest reference this video id? (`db/mod.rs` 242-252.) -/
def manifestReferences (m : ManifestFile) (id : Text) : Bool :=
  m.sections.any (fun s => s.content.any (fun v => v.id == id))

/-- `Database::delete_video`: refuse (error `VideoIsStillInManifest`, table
unchanged) when the published manifest references the id; otherwise DELETE
the row. -/
def deleteVideo (published : Option ManifestFile) (c : Catalog) (id : Text) : Catalog :=
  match published with
  | some m => if manifestReferences m id then c else c.filter (fun r => r.id != id)
  | none => c.filter (fun r => r.id != id)

/-! ### Catalog operation sequences (for the spec §8 size invariant) -/

/-- One catalog mutation, as issued by the writers listed in the spec. -/
inductive CatalogOp where
  | insert (id name : Text) (fileSize : Nat)
  | progress (id : Text) (n : Nat)
  | markFailed (id msg : Text)
  | markDownloaded (id path : Text)
  | view (id : Text)
  | remove (published : Option ManifestFile) (id : Text)

/-- Apply one catalog operation. -/
def applyOp (c : Catalog) : CatalogOp → Catalog
  | .insert id name sz => insertVideo c id name sz
  | .progress id n => updateDownloadProgress c id n
  | .markFailed id msg => setDownloadFailed c id msg
  | .markDownloaded id path => setDownloaded c id path
  | .view id => incrementViewCount c id
  | .remove pub2 id => deleteVideo pub2 c id

/-- Apply a sequence of catalog operations in order. -/
def applyOps (c : Catalog) : List CatalogOp → Catalog
  | [] => c
  | op :: ops => applyOps (applyOp c op) ops

/-- Spec §8 / §3 catalog invariant 2 for one row:
`downloaded_bytes ≤ file_size` whenever the status is `InProgress`
(`0 ≤ downloaded_bytes` holds by the `Nat` representation). -/
def rowSizeInvariant (r : Row) : Prop :=
  r.downloadStatus = .inProgress → r.downloadedSize ≤ r.fileSize

/-- A progress write is within the target row's `file_size`; all other
operations are unconditionally safe. -/
def opSafe (c : Catalog) : CatalogOp → Prop
  | .progress id n => ∀ r ∈ c, r.id = id → n ≤ r.fileSize
  | _ => True

instance (r : Row) : Decidable (rowSizeInvariant r) :=
  inferInstanceAs (Decidable (r.downloadStatus = .inProgress → r.downloadedSize ≤ r.fileSize))

instance (c : Catalog) : (op : CatalogOp) → Decidable (opSafe c op)
  | .insert _ _ _ => isTrue trivial
  | .progress id n => inferInstanceAs (Decidable (∀ r ∈ c, r.id = id → n ≤ r.fileSize))
  | .markFailed _ _ => isTrue trivial
  | .markDownloaded _ _ => isTrue trivial
  | .view _ => isTrue trivial
  | .remove _ _ => isTrue trivial

/-- Every operation of the sequence is safe in the state it executes in. -/
def opsSafe : Catalog → List CatalogOp → Prop
  | _, [] => True
  | c, op :: ops => opSafe c op ∧ opsSafe (applyOp c op) ops

/-! ### View-count endpoint (`src/vds-server/src/api/user.rs` 292-307) -/

/-- HTTP outcome of `POST /api/content/{id}/view`. -/
inductive ViewResp where
  | badRequest
  | notFound
  | ok200
deriving DecidableEq, Repr

/-- `increment_view_cnt`: parse the id (400 on failure), then call
`Database::increment_view_count` — the unconditional UPDATE above — and only
afterwards pattern-match the RETURNING row on `Downloaded`, answering 404
otherwise. -/
def incrementViewCnt (c : Catalog) (idStr : Text) : ViewResp × Catalog :=
  match parseUuid idStr with
  | none => (.badRequest, c)
  | some id =>
    let c2 := incrementViewCount c id
    match findVideo c2 id with
    | some r => if r.downloadStatus = .downloaded then (.ok200, c2) else (.notFound, c2)
    | none => (.notFound, c2)

/-! ### Content endpoint and byte ranges (`api/user.rs` 149-283)

`actix_web::http::header::ByteRangeSpec` and its `to_satisfiable_range`
are modelled from the actix-web crate. -/

/-- A single byte-range spec: `bytes=B-E`, `bytes=B-`, `bytes=-N`. -/
inductive ByteRangeSpec where
  | fromTo (first last2 : Nat)
  | fromStart (first : Nat)
  | lastBytes (n : Nat)
deriving DecidableEq, Repr

/-- `ByteRangeSpec::to_satisfiable_range` (actix-web): clamp against the
full length; `None` when unsatisfiable. -/
def toSatisfiableRange (r : ByteRangeSpec) (fullLength : Nat) : Option (Nat × Nat) :=
  if fullLength = 0 then none
  else
    match r with
    | .fromTo first last2 =>
      let last3 := min last2 (fullLength - 1)
      if first > last3 then none else some (first, last3)
    | .fromStart first =>
      if first ≥ fullLength then none else some (first, fullLength - 1)
    | .lastBytes n =>
      if n > fullLength then some (0, fullLength - 1) else some (fullLength - n, fullLength - 1)

/-- HTTP outcome of `GET /api/content/{id}`; `bodyLen` is the number of
bytes the response stream yields. -/
inductive ContentResp where
  | badRequest
  | notFound
  | okFull (bodyLen : Nat)
  | partialContent (first last2 total bodyLen : Nat)
deriving DecidableEq, Repr

/-- `get_content`: 400 on a malformed id; 404 unless the row's status is
`Downloaded`; a Range header is honoured only when it parses, carries
exactly one range and that range is satisfiable — in every other case
`range` is `None` and the whole file is streamed with 200 OK.
(`fileLen` is the on-disk file size; file-open/metadata I/O failures,
which answer 500, are not modelled.) -/
def getContent (c : Catalog) (idStr : Text) (fileLen : Nat)
    (rangeHeader : Option (List ByteRangeSpec)) : ContentResp :=
  match parseUuid idStr with
  | none => .badRequest
  | some id =>
    match findVideo c id with
    | some r =>
      if r.downloadStatus = .downloaded then
        let range : Option (Nat × Nat) :=
          match rangeHeader with
          | some [spec] => toSatisfiableRange spec fileLen
          | some _ => none
          | none => none
        match range with
        | some (first, last2) => .partialContent first last2 fileLen (last2 - first + 1)
        | none => .okFull fileLen
      else .notFound
    | none => .notFound

/-! ### Manifest poller decision (`src/vds-server/src/downloader/mod.rs` 34-96) -/

/-- What `check_updates` does after a successful fetch and parse. -/
inductive CheckOutcome where
  | upToDate
  | promoted
  | saveFailed
deriving DecidableEq, Repr

/-- The promotion predicate (`downloader/mod.rs` 52-54):
`cur.is_none_or(|v| *v != new_manifest && v.date < new_manifest.date)`. -/
def isMoreRecentManifest (cur : Option ManifestFile) (newM : ManifestFile) : Bool :=
  match cur with
  | none => true
  | some v => (v ≠ newM) && dateLt v.date newM.date

/-- `check_updates` on a fetched-and-parsed manifest: if the predicate
fails, log and return (`upToDate`); otherwise persist the raw bytes first
(`saveFailed` when that errors and the error propagates) and then replace
the running supervisor task with one for the new manifest (`promoted`). -/
def checkUpdates (cur : Option ManifestFile) (newM : ManifestFile) (saveOk : Bool) : CheckOutcome :=
  if isMoreRecentManifest cur newM then
    if saveOk then .promoted else .saveFailed
  else .upToDate

/-! ### Supervisor backoff update (`src/vds-server/src/downloader/tasks.rs` 164-168)

Durations and the `f64` factor are modelled as exact rationals; on the
concrete inputs below `Duration::mul_f64` is exact. -/

/-- `cfg.rs` `RetryParams` (`initial_backoff`, `backoff_factor`,
`max_backoff`). -/
structure RetryParams where
  initialBackoff : ℚ
  backoffFactor : ℚ
  maxBackoff : ℚ

/-- `tasks.rs` `Job`: a pending download with its current backoff. -/
structure JobM where
  backoffTime : ℚ
  video : MVideo

/-- The `ShouldRetry(job)` arm of the supervisor select loop: compute the
wake-up instant `now + job.backoff_time`, then
`job.backoff_time = job.backoff_time.mul_f64(backoff_factor)` — the source
applies no `min` against `max_backoff`. -/
def onShouldRetry (p : RetryParams) (now : ℚ) (j : JobM) : ℚ × JobM :=
  (now + j.backoffTime, { j with backoffTime := j.backoffTime * p.backoffFactor })

/-! ### Download worker (`src/vds-server/src/downloader/tasks.rs` 197-273)

The I/O environment is explicit: the `File::create` outcome, and the
backend stream as a list of items, each either an error or a chunk bundled
with the outcome of its local write. SHA-256 itself is an ambient function
parameter (`hashFn`); the control flow does not depend on it. Catalog
mutations are assumed to succeed (the `Unrecoverable` db-error paths of the
source are not exercised here). -/

/-- One item produced by `backend.fetch_resource(...)`, with the local
write outcome for a data chunk. -/
inductive StreamItem where
  | chunk (data : List Nat) (writeOk : Bool)
  | ioErr (errText : Text)

/-- The message of `tasks.rs` 227-230:
`format!("Error fetching file with id: {}, name: {}. Error: {}", ...)`. -/
def fetchErrorMessage (v : MVideo) (errText : Text) : Text :=
  "Error fetching file with id: ".data ++ v.id ++ ", name: ".data ++ v.name ++
    ". Error: ".data ++ errText

/-- The message of `tasks.rs` 264:
`format!("Got hash: {hash}. Expected: {}", video.sha256)`. -/
def hashMismatchMessage (got expected : Text) : Text :=
  "Got hash: ".data ++ got ++ ". Expected: ".data ++ expected

/-- Worker outcome (`Ok(())`, `Err(ShouldRetry(job))`,
`Err(Unrecoverable(job))`). -/
inductive DownloadJobResult where
  | ok
  | shouldRetry (j : JobM)
  | unrecoverable (j : JobM)

/-- The chunk loop of `download_job_task` (`tasks.rs` 222-257) followed by
the digest check and commit (259-272). `acc` is the hasher state (all bytes
fed so far), `total` the running byte counter. A stream error marks the row
failed and retries; a failed local write returns `ShouldRetry` directly;
a successful chunk feeds the hasher, advances the counter and writes
progress to the catalog. -/
def workerLoop (hashFn : List Nat → Text) (j : JobM) (targetPath : Text) :
    List StreamItem → List Nat → Nat → Catalog → DownloadJobResult × Catalog
  | [], acc, _, c =>
    if hashFn acc = j.video.sha256 then
      (.ok, setDownloaded c j.video.id targetPath)
    else
      (.shouldRetry j,
        setDownloadFailed c j.video.id (hashMismatchMessage (hashFn acc) j.video.sha256))
  | .ioErr e :: _, _, _, c =>
    (.shouldRetry j, setDownloadFailed c j.video.id (fetchErrorMessage j.video e))
  | .chunk d wOk :: rest, acc, total, c =>
    if wOk then
      workerLoop hashFn j targetPath rest (acc ++ d) (total + d.length)
        (updateDownloadProgress c j.video.id (total + d.length))
    else
      (.shouldRetry j, c)

/-- `download_job_task`: open the stream, create
`<content_path>/<id>.mp4` (on error: `ShouldRetry`, no catalog call), then
run the chunk loop. -/
def downloadJobTask (hashFn : List Nat → Text) (contentPath : Text) (createOk : Bool)
    (items : List StreamItem) (j : JobM) (c : Catalog) : DownloadJobResult × Catalog :=
  let targetPath := contentPath ++ ('/' :: (j.video.id ++ ".mp4".data))
  if createOk then workerLoop hashFn j targetPath items [] 0 c
  else (.shouldRetry j, c)

/-- The catalog state after the progress writes of a prefix of successfully
written chunks (used to state what the worker has committed before its
first failure). -/
def progressAfter (id : Text) : List StreamItem → Nat → Catalog → Catalog
  | [], _, c => c
  | .chunk d _ :: rest, total, c =>
    progressAfter id rest (total + d.length) (updateDownloadProgress c id (total + d.length))
  | .ioErr _ :: _, _, c => c

/-- All items of a prefix are chunks whose local writes succeed. -/
def allWritesOk (items : List StreamItem) : Bool :=
  items.all fun it =>
    match it with
    | .chunk _ true => true
    | _ => false

/-! ### JSON text layer (modelled from the external `serde_json` crate)

`jsonRender` is `serde_json::to_string` (compact form); `jsonTextParse` is
a fueled executable parser for `serde_json::from_slice`'s text layer,
used to evaluate concrete documents. -/

/-- JSON string escaping (quote, backslash and the common control
characters; other control characters do not occur in this development). -/
def escapeJsonChar (c : Char) : Text :=
  if c = '"' then ['\\', '"']
  else if c = '\\' then ['\\', '\\']
  else if c = '\n' then ['\\', 'n']
  else if c = '\t' then ['\\', 't']
  else if c = '\r' then ['\\', 'r']
  else [c]

/-- A JSON string literal with quotes. -/
def renderJsonString (s : Text) : Text :=
  '"' :: ((s.map escapeJsonChar).flatten ++ ['"'])

mutual

/-- Compact rendering of a JSON value (`serde_json::to_string`). -/
def jsonRender : Json → Text
  | .null => "null".data
  | .bool true => "true".data
  | .bool false => "false".data
  | .num n => natRender n
  | .str s => renderJsonString s
  | .arr xs => '[' :: (jsonRenderArr xs ++ [']'])
  | .obj fs => '\x7b' :: (jsonRenderObj fs ++ ['\x7d'])

/-- Comma-separated rendering of array elements. -/
def jsonRenderArr : JsonArr → Text
  | .nil => []
  | .cons j .nil => jsonRender j
  | .cons j (.cons j2 rest) => jsonRender j ++ (',' :: jsonRenderArr (.cons j2 rest))

/-- Comma-separated rendering of object fields. -/
def jsonRenderObj : JsonObj → Text
  | .nil => []
  | .cons k v .nil => renderJsonString k ++ (':' :: jsonRender v)
  | .cons k v (.cons k2 v2 rest) =>
    renderJsonString k ++ (':' :: jsonRender v) ++ (',' :: jsonRenderObj (.cons k2 v2 rest))

end

/-- JSON whitespace. -/
def isWs (c : Char) : Bool := c = ' ' || c = '\n' || c = '\t' || c = '\r'

/-- Drop leading whitespace. -/
def skipWs : Text → Text
  | [] => []
  | c :: cs => if isWs c then skipWs cs else c :: cs

/-- Parse the body of a JSON string literal (after the opening quote),
returning the decoded content and the input after the closing quote. -/
def parseJsonStringBody : Nat → Text → Option (Text × Text)
  | 0, _ => none
  | _ + 1, [] => none
  | fuel + 1, c :: cs =>
    if c = '"' then some ([], cs)
    else if c = '\\' then
      match cs with
      | [] => none
      | e :: cs2 =>
        let dec : Option Char :=
          if e = '"' then some '"'
          else if e = '\\' then some '\\'
          else if e = '/' then some '/'
          else if e = 'n' then some '\n'
          else if e = 't' then some '\t'
          else if e = 'r' then some '\r'
          else none
        match dec with
        | some ch =>
          match parseJsonStringBody fuel cs2 with
          | some (s, rest) => some (ch :: s, rest)
          | none => none
        | none => none
    else
      match parseJsonStringBody fuel cs with
      | some (s, rest) => some (c :: s, rest)
      | none => none

/-- Parser mode: a value, the items of an array (after `[`, at least one),
or the fields of an object (after the opening brace, at least one). -/
inductive PMode where
  | value
  | arrItems
  | objItems

/-- Partial parse result for each mode. -/
inductive PRes where
  | val (j : Json)
  | arrv (xs : JsonArr)
  | objv (fs : JsonObj)

/-- The fueled JSON text parser. -/
def parseJsonAux : Nat → PMode → Text → Option (PRes × Text)
  | 0, _, _ => none
  | fuel + 1, .value, t =>
    match skipWs t with
    | [] => none
    | c :: cs =>
      if c = '"' then
        match parseJsonStringBody (fuel + 1) cs with
        | some (s, rest) => some (.val (.str s), rest)
        | none => none
      else if isDigitCh c then
        some (.val (.num (digitsVal ((c :: cs).takeWhile isDigitCh))),
          (c :: cs).dropWhile isDigitCh)
      else if c = 'n' then
        match cs with
        | 'u' :: 'l' :: 'l' :: rest => some (.val .null, rest)
        | _ => none
      else if c = 't' then
        match cs with
        | 'r' :: 'u' :: 'e' :: rest => some (.val (.bool true), rest)
        | _ => none
      else if c = 'f' then
        match cs with
        | 'a' :: 'l' :: 's' :: 'e' :: rest => some (.val (.bool false), rest)
        | _ => none
      else if c = '[' then
        match skipWs cs with
        | ']' :: rest => some (.val (.arr .nil), rest)
        | t2 =>
          match parseJsonAux fuel .arrItems t2 with
          | some (.arrv xs, rest) => some (.val (.arr xs), rest)
          | _ => none
      else if c = '\x7b' then
        match skipWs cs with
        | '\x7d' :: rest => some (.val (.obj .nil), rest)
        | t2 =>
          match parseJsonAux fuel .objItems t2 with
          | some (.objv fs, rest) => some (.val (.obj fs), rest)
          | _ => none
      else none
  | fuel + 1, .arrItems, t =>
    match parseJsonAux fuel .value t with
    | some (.val j, rest) =>
      (match skipWs rest with
       | ',' :: rest2 =>
         match parseJsonAux fuel .arrItems rest2 with
         | some (.arrv xs, rest3) => some (.arrv (.cons j xs), rest3)
         | _ => none
       | ']' :: rest2 => some (.arrv (.cons j .nil), rest2)
       | _ => none)
    | _ => none
  | fuel + 1, .objItems, t =>
    match skipWs t with
    | '"' :: cs =>
      (match parseJsonStringBody (fuel + 1) cs with
       | some (k, rest) =>
         (match skipWs rest with
          | ':' :: rest2 =>
            (match parseJsonAux fuel .value rest2 with
             | some (.val v, rest3) =>
               (match skipWs rest3 with
                | ',' :: rest4 =>
                  (match parseJsonAux fuel .objItems rest4 with
                   | some (.objv fs, rest5) => some (.objv (.cons k v fs), rest5)
                   | _ => none)
                | '\x7d' :: rest4 => some (.objv (.cons k v .nil), rest4)
                | _ => none)
             | _ => none)
          | _ => none)
       | none => none)
    | _ => none

/-- Parse a complete JSON document (the text layer of
`serde_json::from_slice`). -/
def jsonTextParse (t : Text) : Option Json :=
  match parseJsonAux (t.length + 1) .value t with
  | some (.val j, rest) => if (skipWs rest).isEmpty then some j else none
  | _ => none

/-- The full byte-level manifest parse of the source
(`serde_json::from_slice::<ManifestFile>`): text layer, then typed layer. -/
def parseManifestBytes (t : Text) : Option ManifestFile :=
  (jsonTextParse t).bind manifestFromJson

/-! ### Manifest endpoint (`src/vds-server/src/api/user.rs` 315-327) -/

/-- `get_manifest`: `serde_json::to_string` of the in-memory published
manifest — a re-serialization — or the empty body when none is published.
The persisted bytes on disk are never read here. -/
def getManifestBody (current : Option ManifestFile) : Text :=
  match current with
  | some m => jsonRender (manifestToJson m)
  | none => []

/-! ### Concrete fixtures (from the repository's own test data) -/

/-- A sample video (from `manifest.rs` tests). -/
def sampleVideo1 : MVideo :=
  ⟨"Linear equations".data, "bf978778-1c5d-44b3-b2c1-1cc253563799".data,
   "s3://bucket/linear-equations.mp4".data,
   "0b88b2dec2be5e2ef74022ef6a8023232e28374d67e917b76f9bb607e691f327".data, 123456⟩

/-- A second sample video. -/
def sampleVideo2 : MVideo :=
  ⟨"Quadratic equations".data, "5eb9e089-79cf-478d-9121-9ca3e7bb1d4a".data,
   "s3://bucket/quadratic-equations.mp4".data,
   "8f9e3a4ae7d86c4abdf731a947fc90b607b82a0362da0b312e3b644defedb81f".data, 123457⟩

/-- A valid sample manifest with two sections. -/
def sampleManifest : ManifestFile :=
  ⟨"High school video distribution list".data, ⟨2025, 10, 10⟩, ⟨1, 0, 0⟩,
   [⟨"Equations".data, [sampleVideo1]⟩, ⟨"Integration".data, [sampleVideo2]⟩]⟩

/-- A manifest in which the same video id appears in two sections. -/
def dupManifest : ManifestFile :=
  ⟨"dup".data, ⟨2025, 10, 10⟩, ⟨1, 0, 0⟩,
   [⟨"A".data, [sampleVideo1]⟩, ⟨"B".data, [sampleVideo1]⟩]⟩

/-- A JSON manifest document carrying a duplicated video id. -/
def dupDoc : Json := manifestToJson dupManifest

/-- The same content as `sampleManifest`, dated one day later. -/
def sampleNewer : ManifestFile := { sampleManifest with date := ⟨2025, 10, 11⟩ }

/-- The id text of `sampleVideo2`. -/
def vid2Id : Text := "5eb9e089-79cf-478d-9121-9ca3e7bb1d4a".data

/-- A catalog row for `sampleVideo2`, still pending download. -/
def pendingRow : Row :=
  ⟨vid2Id, "Quadratic equations".data, 123457, 0, .pending, [], [], 0⟩

/-- A catalog row for `sampleVideo2`, downloaded, whose on-disk file has 4
bytes. -/
def downloadedRow : Row :=
  ⟨vid2Id, "Quadratic equations".data, 4, 4, .downloaded, [],
   "/data/content/5eb9e089-79cf-478d-9121-9ca3e7bb1d4a.mp4".data, 0⟩

/-- A second catalog row with an unrelated id. -/
def otherRow : Row :=
  ⟨"bf978778-1c5d-44b3-b2c1-1cc253563799".data, "Linear equations".data,
   123456, 0, .pending, [], [], 7⟩

/-- Raw manifest bytes as a remote server might deliver them — the same
document `serde_json` parses, but with whitespace between tokens, so not in
the compact form `serde_json::to_string` produces. -/
def rawManifestBytes : Text :=
  "\x7b\"name\": \"m\", \"date\": \"2025-10-10\", \"version\": \"v1.0.0\", \"sections\": []\x7d".data

/-- The manifest `rawManifestBytes` parses to. -/
def emptyManifest : ManifestFile := ⟨"m".data, ⟨2025, 10, 10⟩, ⟨1, 0, 0⟩, []⟩

/-- A job for `sampleVideo2` at 100 ms backoff. -/
def sampleJob : JobM := ⟨1/10, sampleVideo2⟩

/-- A digest function for exercising the worker's control flow (the I/O
error paths return before any digest is computed, so any function serves). -/
def hashStub : List Nat → Text := fun _ => []

/-! ## Theorems -/

theorem valLE_natDigitsAux (fuel : Nat) : ∀ n : Nat, n ≤ fuel →
    valLE (natDigitsAux fuel n) = n := by
  induction fuel with
  | zero => intro n hn; interval_cases n; simp [natDigitsAux, valLE]
  | succ fuel ih =>
    intro n hn
    match n with
    | 0 => simp [natDigitsAux, valLE]
    | m + 1 =>
      have hdivle : (m + 1) / 10 ≤ fuel := by
        have h1 : (m + 1) / 10 < m + 1 := Nat.div_lt_self (Nat.succ_pos m) (by norm_num)
        omega
      simp only [natDigitsAux, valLE, ih _ hdivle]
      omega

theorem natDigitsAux_lt_ten (fuel : Nat) : ∀ n : Nat, ∀ d ∈ natDigitsAux fuel n, d < 10 := by
  induction fuel with
  | zero => intro n d hd; simp [natDigitsAux] at hd
  | succ fuel ih =>
    intro n d hd
    match n with
    | 0 => simp [natDigitsAux] at hd
    | m + 1 =>
      simp only [natDigitsAux, List.mem_cons] at hd
      rcases hd with h | h
      · subst h; exact Nat.mod_lt _ (by norm_num)
      · exact ih _ _ h

theorem digitChar_toNat {d : Nat} (hd : d < 10) : (digitChar d).toNat = 48 + d := by
  interval_cases d <;> rfl

theorem isDigitCh_digitChar {d : Nat} (hd : d < 10) : isDigitCh (digitChar d) = true := by
  interval_cases d <;> rfl

/-- Folding `digitsVal`'s step over mapped digit characters computes the
big-endian value. -/
theorem digitsVal_go_map (ds : List Nat) (hds : ∀ d ∈ ds, d < 10) (acc : Nat) :
    (ds.map digitChar).foldl (fun acc c => acc * 10 + (c.toNat - 48)) acc =
      ds.foldl (fun acc d => acc * 10 + d) acc := by
  induction ds generalizing acc with
  | nil => rfl
  | cons d ds ih =>
    have hd : d < 10 := hds d (List.mem_cons_self d ds)
    have hds2 : ∀ e ∈ ds, e < 10 := fun e he => hds e (List.mem_cons_of_mem d he)
    simp only [List.map_cons, List.foldl_cons, digitChar_toNat hd, Nat.add_sub_cancel_left,
      ih hds2]

theorem foldl_be_reverse (ds : List Nat) (acc : Nat) :
    (ds.reverse).foldl (fun acc d => acc * 10 + d) acc =
      acc * 10 ^ ds.length + valLE ds := by
  induction ds generalizing acc with
  | nil => simp [valLE]
  | cons d ds ih =>
    simp only [List.reverse_cons, List.foldl_append, List.foldl_cons, List.foldl_nil,
      valLE, ih, List.length_cons]
    ring

theorem parseNat_natRender (n : Nat) : parseNat (natRender n) = some n := by
  by_cases hn : n = 0
  · subst hn; rfl
  · have hdigits : ∀ d ∈ natDigitsLE n, d < 10 := natDigitsAux_lt_ten n n
    have hne : natDigitsLE n ≠ [] := by
      unfold natDigitsLE
      match n, hn with
      | m + 1, _ => simp [natDigitsAux]
    simp only [natRender, if_neg hn, parseNat]
    have hall : ((natDigitsLE n).reverse.map digitChar).all isDigitCh = true := by
      simp only [List.all_eq_true, List.mem_map, List.mem_reverse]
      rintro c ⟨d, hd, rfl⟩
      exact isDigitCh_digitChar (hdigits d hd)
    have hnonempty : ((natDigitsLE n).reverse.map digitChar).isEmpty = false := by
      rcases List.exists_cons_of_ne_nil hne with ⟨d, ds, hcons⟩
      simp [hcons]
    rw [hnonempty, hall]
    simp only [Bool.not_false, Bool.and_self, if_pos]
    congr 1
    have hrev : ∀ d ∈ (natDigitsLE n).reverse, d < 10 := by
      intro d hd; exact hdigits d (List.mem_reverse.mp hd)
    calc digitsVal ((natDigitsLE n).reverse.map digitChar)
        = ((natDigitsLE n).reverse).foldl (fun acc d => acc * 10 + d) 0 :=
          digitsVal_go_map _ hrev 0
      _ = 0 * 10 ^ (natDigitsLE n).length + valLE (natDigitsLE n) := foldl_be_reverse _ 0
      _ = n := by
          simp only [natDigitsLE]
          rw [valLE_natDigitsAux n n (Nat.le_refl n)]; ring

theorem natRender_all_digits (n : Nat) : ∀ c ∈ natRender n, isDigitCh c = true := by
  intro c hc
  by_cases hn : n = 0
  · subst hn
    rw [show natRender 0 = ['0'] from rfl] at hc
    simp only [List.mem_singleton] at hc
    subst hc; rfl
  · simp only [natRender, if_neg hn, List.mem_map, List.mem_reverse] at hc
    rcases hc with ⟨d, hd, rfl⟩
    exact isDigitCh_digitChar (natDigitsAux_lt_ten n n d hd)

theorem splitOnChar_ne_nil (sep : Char) (t : Text) : splitOnChar sep t ≠ [] := by
  induction t with
  | nil => simp [splitOnChar]
  | cons c cs ih =>
    simp only [splitOnChar]
    split
    · simp
    · match h : splitOnChar sep cs with
      | [] => simp
      | t :: ts => simp

theorem splitOnChar_no_sep (sep : Char) (a : Text) (ha : ∀ c ∈ a, c ≠ sep) :
    splitOnChar sep a = [a] := by
  induction a with
  | nil => rfl
  | cons c cs ih =>
    have hc : c ≠ sep := ha c (List.mem_cons_self c cs)
    have hcs : ∀ x ∈ cs, x ≠ sep := fun x hx => ha x (List.mem_cons_of_mem c hx)
    simp only [splitOnChar, if_neg hc, ih hcs]

theorem splitOnChar_append_sep (sep : Char) (a rest : Text) (ha : ∀ c ∈ a, c ≠ sep) :
    splitOnChar sep (a ++ sep :: rest) = a :: splitOnChar sep rest := by
  induction a with
  | nil => simp [splitOnChar]
  | cons c cs ih =>
    have hc : c ≠ sep := ha c (List.mem_cons_self c cs)
    have hcs : ∀ x ∈ cs, x ≠ sep := fun x hx => ha x (List.mem_cons_of_mem c hx)
    simp only [List.cons_append, splitOnChar, if_neg hc]
    rw [show cs.append (sep :: rest) = cs ++ sep :: rest from rfl, ih hcs]

theorem natRender_ne_dot (n : Nat) : ∀ c ∈ natRender n, c ≠ '.' := by
  intro c hc
  have := natRender_all_digits n c hc
  intro h; subst h; simp [isDigitCh] at this

theorem parseVersion_renderVersion (v : Version) (hv : validVersionB v = true) :
    parseVersion (renderVersion v) = some v := by
  simp only [validVersionB, Bool.and_eq_true, decide_eq_true_eq] at hv
  obtain ⟨⟨h1, h2⟩, h3⟩ := hv
  simp only [renderVersion, parseVersion]
  rw [splitOnChar_append_sep '.' _ _ (natRender_ne_dot v.major)]
  rw [splitOnChar_append_sep '.' _ _ (natRender_ne_dot v.minor)]
  rw [splitOnChar_no_sep '.' _ (natRender_ne_dot v.revision)]
  simp only [parseNat_natRender, Option.bind_eq_bind, Option.some_bind]
  rw [if_pos ⟨h1, h2, h3⟩]

theorem dateLe_not_lt {a b : DateYMD} (h : dateLe b a = true) : dateLt a b = false := by
  rcases a with ⟨ay, am, ad⟩
  rcases b with ⟨by2, bm, bd⟩
  simp only [dateLe, dateLt, Bool.or_eq_true, Bool.and_eq_true, decide_eq_true_eq,
    beq_iff_eq, DateYMD.mk.injEq] at h
  simp only [dateLt, Bool.or_eq_false_iff, Bool.and_eq_false_iff, decide_eq_false_iff_not,
    not_lt, beq_eq_false_iff_ne, ne_eq]
  omega

theorem parseNat_padZeros (w : Nat) (n : Nat) : parseNat (padZeros w (natRender n)) = some n := by
  simp only [padZeros, parseNat]
  have hall : ((List.replicate (w - (natRender n).length) '0' ++ natRender n).all isDigitCh)
      = true := by
    simp only [List.all_append, Bool.and_eq_true, List.all_eq_true]
    constructor
    · intro c hc
      rw [List.eq_of_mem_replicate hc]; rfl
    · exact natRender_all_digits n
  have hne : ((List.replicate (w - (natRender n).length) '0' ++ natRender n).isEmpty) = false := by
    have : natRender n ≠ [] := by
      by_cases hn : n = 0
      · subst hn; simp [natRender]
      · simp only [natRender, if_neg hn, ne_eq, List.map_eq_nil_iff, List.reverse_eq_nil_iff]
        unfold natDigitsLE
        match n, hn with
        | m + 1, _ => simp [natDigitsAux]
    rcases List.exists_cons_of_ne_nil this with ⟨c, cs, hcons⟩
    rw [List.isEmpty_eq_false_iff_exists_mem]
    exact ⟨c, by simp [hcons]⟩
  rw [hall, hne]
  simp only [Bool.not_false, Bool.and_self, if_pos]
  congr 1
  · -- leading zeros do not change the value
    simp only [digitsVal, List.foldl_append]
    have hzeros : ∀ k : Nat, (List.replicate k '0').foldl
        (fun acc c => acc * 10 + (c.toNat - 48)) 0 = 0 := by
      intro k
      induction k with
      | zero => rfl
      | succ k ih => simpa [List.replicate_succ] using ih
    rw [hzeros]
    have := parseNat_natRender n
    simp only [parseNat] at this
    by_cases hn : n = 0
    · subst hn; rfl
    · split at this
      · exact (Option.some.injEq _ _).mp this
      · exact absurd this (by simp)

theorem padZeros_digits (w n : Nat) : ∀ c ∈ padZeros w (natRender n), isDigitCh c = true := by
  intro c hc
  simp only [padZeros, List.mem_append] at hc
  rcases hc with h | h
  · rw [List.eq_of_mem_replicate h]; rfl
  · exact natRender_all_digits n c h

theorem padZeros_ne_dash (w n : Nat) : ∀ c ∈ padZeros w (natRender n), c ≠ '-' := by
  intro c hc h
  have := padZeros_digits w n c hc
  subst h; simp [isDigitCh] at this

theorem parseDate_renderDate (d : DateYMD) (hd : validDateB d = true) :
    parseDate (renderDate d) = some d := by
  simp only [renderDate, parseDate]
  rw [splitOnChar_append_sep '-' _ _ (padZeros_ne_dash 4 d.year)]
  rw [splitOnChar_append_sep '-' _ _ (padZeros_ne_dash 2 d.month)]
  rw [splitOnChar_no_sep '-' _ (padZeros_ne_dash 2 d.day)]
  simp only [parseNat_padZeros, Option.bind_eq_bind, Option.some_bind]
  rw [if_pos hd]

/-! ### Round-trip: parsing a serialized manifest recovers it -/

theorem parseUuid_valid {t : Text} (h : validUuidB t = true) : parseUuid t = some t := by
  simp [parseUuid, h]

theorem parseUri_valid {t : Text} (h : validUriB t = true) : parseUri t = some t := by
  simp [parseUri, h]

theorem parseSha_valid {t : Text} (h : validShaB t = true) : parseSha t = some t := by
  simp [parseSha, h]

theorem videoFromJson_videoToJson (v : MVideo) (hv : validVideoB v = true) :
    videoFromJson (videoToJson v) = some v := by
  simp only [validVideoB, Bool.and_eq_true, decide_eq_true_eq] at hv
  obtain ⟨⟨⟨hid, huri⟩, hsha⟩, hsz⟩ := hv
  simp [videoFromJson, videoToJson, findField, getStr, getNum,
    parseUuid_valid hid, parseUri_valid huri, parseSha_valid hsha, hsz]

theorem videosFromJson_videosToJson (vs : List MVideo) (h : vs.all validVideoB = true) :
    videosFromJson (videosToJson vs) = some vs := by
  induction vs with
  | nil => rfl
  | cons v vs ih =>
    simp only [List.all_cons, Bool.and_eq_true] at h
    simp [videosToJson, videosFromJson, videoFromJson_videoToJson v h.1, ih h.2]

theorem sectionFromJson_sectionToJson (s : MSection) (h : s.content.all validVideoB = true) :
    sectionFromJson (sectionToJson s) = some s := by
  simp [sectionFromJson, sectionToJson, findField, getStr, getArr,
    videosFromJson_videosToJson s.content h]

theorem sectionsFromJson_sectionsToJson (ss : List MSection)
    (h : ss.all (fun s => s.content.all validVideoB) = true) :
    sectionsFromJson (sectionsToJson ss) = some ss := by
  induction ss with
  | nil => rfl
  | cons s ss ih =>
    simp only [List.all_cons, Bool.and_eq_true] at h
    simp [sectionsToJson, sectionsFromJson, sectionFromJson_sectionToJson s h.1, ih h.2]

/-- The manifest round-trip at the JSON-value layer: parsing the canonical
serialization of a manifest with well-formed leaves recovers it
structurally, field for field and in order. Uniqueness of IDs is not
needed: the parser performs no duplicate-ID check. -/
theorem manifestFromJson_manifestToJson (m : ManifestFile)
    (hm : validManifestLeavesB m = true) :
    manifestFromJson (manifestToJson m) = some m := by
  simp only [validManifestLeavesB, Bool.and_eq_true] at hm
  obtain ⟨⟨hdate, hver⟩, hsec⟩ := hm
  simp [manifestToJson, manifestFromJson, findField, getStr, getArr,
    parseDate_renderDate m.date hdate, parseVersion_renderVersion m.version hver,
    sectionsFromJson_sectionsToJson m.sections hsec]

/-! ### Catalog helper lemmas -/

/-- Looking up an id after a per-row conditional update returns the updated
row (the update function must preserve the id). -/
theorem findVideo_map_update (c : Catalog) (id : Text) (g : Row → Row)
    (hg : ∀ r, (g r).id = r.id) :
    findVideo (c.map fun r => if r.id = id then g r else r) id =
      (findVideo c id).map g := by
  induction c with
  | nil => rfl
  | cons r c ih =>
    by_cases h : r.id = id
    · have h1 : findVideo ((r :: c).map fun r => if r.id = id then g r else r) id
          = some (g r) := by
        simp [findVideo, h, hg]
      have h2 : findVideo (r :: c) id = some r := by simp [findVideo, h]
      rw [h1, h2]
      rfl
    · have h1 : findVideo ((r :: c).map fun r => if r.id = id then g r else r) id
          = findVideo (c.map fun r => if r.id = id then g r else r) id := by
        simp [findVideo, h]
      have h2 : findVideo (r :: c) id = findVideo c id := by
        simp [findVideo, h]
      rw [h1, h2, ih]

/-- One catalog operation preserves the per-row size invariant when any
progress write stays within the target's file size. -/
theorem applyOp_preserves_size_invariant (c : Catalog) (op : CatalogOp)
    (hc : ∀ r ∈ c, rowSizeInvariant r) (hop : opSafe c op) :
    ∀ r ∈ applyOp c op, rowSizeInvariant r := by
  cases op with
  | insert id name sz =>
    intro r hr
    simp only [applyOp, insertVideo] at hr
    split at hr
    · exact hc r hr
    · rcases List.mem_append.mp hr with h | h
      · exact hc r h
      · simp only [List.mem_singleton] at h
        subst h
        intro hst
        simp at hst
  | progress id n =>
    intro r hr
    simp only [applyOp, updateDownloadProgress, List.mem_map] at hr
    rcases hr with ⟨r0, hr0, rfl⟩
    by_cases h : r0.id = id
    · simp only [if_pos h, rowSizeInvariant]
      intro _
      exact hop r0 hr0 h
    · simp only [if_neg h]
      exact hc r0 hr0
  | markFailed id msg =>
    intro r hr
    simp only [applyOp, setDownloadFailed, List.mem_map] at hr
    rcases hr with ⟨r0, hr0, rfl⟩
    by_cases h : r0.id = id
    · simp only [if_pos h, rowSizeInvariant]
      intro hst
      simp at hst
    · simp only [if_neg h]
      exact hc r0 hr0
  | markDownloaded id path =>
    intro r hr
    simp only [applyOp, setDownloaded, List.mem_map] at hr
    rcases hr with ⟨r0, hr0, rfl⟩
    by_cases h : r0.id = id
    · simp only [if_pos h, rowSizeInvariant]
      intro hst
      simp at hst
    · simp only [if_neg h]
      exact hc r0 hr0
  | view id =>
    intro r hr
    simp only [applyOp, incrementViewCount, List.mem_map] at hr
    rcases hr with ⟨r0, hr0, rfl⟩
    by_cases h : r0.id = id
    · simp only [if_pos h, rowSizeInvariant]
      exact hc r0 hr0
    · simp only [if_neg h]
      exact hc r0 hr0
  | remove pub2 id =>
    intro r hr
    simp only [applyOp, deleteVideo] at hr
    cases pub2 with
    | none => exact hc r (List.mem_filter.mp hr).1
    | some m =>
      have hr2 : r ∈ if manifestReferences m id = true then c
          else List.filter (fun r => r.id != id) c := hr
      by_cases hm : manifestReferences m id = true
      · rw [if_pos hm] at hr2
        exact hc r hr2
      · rw [if_neg hm] at hr2
        exact hc r (List.mem_filter.mp hr2).1

/-! ### Worker loop helper lemmas -/

theorem workerLoop_ioErr (hashFn : List Nat → Text) (j : JobM) (targetPath : Text)
    (pre : List StreamItem) (hpre : allWritesOk pre = true) :
    ∀ e rest (total : Nat) (acc : List Nat) (c : Catalog),
      workerLoop hashFn j targetPath (pre ++ .ioErr e :: rest) acc total c =
        (.shouldRetry j,
          setDownloadFailed (progressAfter j.video.id pre total c) j.video.id
            (fetchErrorMessage j.video e)) := by
  induction pre with
  | nil => intro e rest total acc c; rfl
  | cons it pre ih =>
    intro e rest total acc c
    match it with
    | .ioErr _ => simp [allWritesOk] at hpre
    | .chunk d false => simp [allWritesOk] at hpre
    | .chunk d true =>
      have hpre2 : allWritesOk pre = true := by
        simp only [allWritesOk, List.all_cons, Bool.and_eq_true] at hpre
        exact hpre.2
      simp only [List.cons_append, workerLoop, if_pos, progressAfter]
      exact ih hpre2 e rest (total + d.length) (acc ++ d) _

theorem workerLoop_writeErr (hashFn : List Nat → Text) (j : JobM) (targetPath : Text)
    (pre : List StreamItem) (hpre : allWritesOk pre = true) :
    ∀ d rest (total : Nat) (acc : List Nat) (c : Catalog),
      workerLoop hashFn j targetPath (pre ++ .chunk d false :: rest) acc total c =
        (.shouldRetry j, progressAfter j.video.id pre total c) := by
  induction pre with
  | nil => intro d rest total acc c; rfl
  | cons it pre ih =>
    intro d rest total acc c
    match it with
    | .ioErr _ => simp [allWritesOk] at hpre
    | .chunk d2 false => simp [allWritesOk] at hpre
    | .chunk d2 true =>
      have hpre2 : allWritesOk pre = true := by
        simp only [allWritesOk, List.all_cons, Bool.and_eq_true] at hpre
        exact hpre.2
      simp only [List.cons_append, workerLoop, if_pos, progressAfter]
      exact ih hpre2 d rest (total + d2.length) (acc ++ d2) _

/-! ## Claim theorems -/

/-- Claim C1: the spec states that after every `ShouldRetry(job)` completion
the job's new backoff equals `min(max_backoff, old × backoff_factor)` and
that the per-job backoff never exceeds `max_backoff`. The source
(`tasks.rs` 167) multiplies by `backoff_factor` with no clamp and never
reads `max_backoff`: with `backoff_factor = 2` and
`initial_backoff = max_backoff = 1/10 s` (100 ms), one retry already yields
`1/5 s` (200 ms) `> max_backoff`, and the stored value differs from the
claimed `min`. -/
theorem backoff_update_ignores_max_backoff :
    (onShouldRetry ⟨1/10, 2, 1/10⟩ 0 ⟨1/10, sampleVideo2⟩).2.backoffTime = 1/5 ∧
    (onShouldRetry ⟨1/10, 2, 1/10⟩ 0 ⟨1/10, sampleVideo2⟩).2.backoffTime >
      (⟨1/10, 2, 1/10⟩ : RetryParams).maxBackoff ∧
    (onShouldRetry ⟨1/10, 2, 1/10⟩ 0 ⟨1/10, sampleVideo2⟩).2.backoffTime ≠
      min (⟨1/10, 2, 1/10⟩ : RetryParams).maxBackoff ((1/10 : ℚ) * 2) := by
  refine ⟨?_, ?_, ?_⟩ <;> norm_num [onShouldRetry, min_def]

set_option maxRecDepth 20000 in
/-- Claim C2 (counterexample): a concrete manifest document in which the
video id `5eb9e089-…` appears in two different sections parses successfully
through the full byte-level pipeline — `serde_json` text layer plus the
typed layer of `manifest.rs` — instead of producing a `ParseError`. -/
theorem parse_duplicate_ids_cex :
    parseManifestBytes (jsonRender dupDoc) = some dupManifest ∧
      ¬ (manifestIds dupManifest).Nodup := by
  refine ⟨by decide, by decide⟩

/-- Claim C2 (amended): manifest parsing performs no duplicate-ID check:
every document that serializes a manifest with well-formed leaf fields —
duplicate IDs included — parses back to that manifest. (Deduplication
happens only later, when the supervisor builds its work queue,
`tasks.rs` 104.) -/
theorem parse_accepts_duplicate_ids (m : ManifestFile)
    (hm : validManifestLeavesB m = true) :
    manifestFromJson (manifestToJson m) = some m :=
  manifestFromJson_manifestToJson m hm

/-- Witness for the amended C2, at the duplicate-ID manifest. -/
theorem parse_accepts_duplicate_ids_witness :
    validManifestLeavesB dupManifest = true ∧
      manifestFromJson (manifestToJson dupManifest) = some dupManifest :=
  ⟨by decide, parse_accepts_duplicate_ids dupManifest (by decide)⟩

/-- Claim C3 (counterexample): on a known video whose status is `Pending`
the endpoint answers 404 — but the row is not left unchanged: its
`view_count` has been incremented from 0 to 1 by the unconditional UPDATE
that runs before the `Downloaded` check (`api/user.rs` 297-305). -/
theorem view_endpoint_increments_on_404_cex :
    (incrementViewCnt [pendingRow] vid2Id).1 = .notFound ∧
      (findVideo (incrementViewCnt [pendingRow] vid2Id).2 vid2Id).map Row.viewCount =
        some 1 ∧
      pendingRow.viewCount = 0 :=
  ⟨by decide, by decide, rfl⟩

/-- Claim C3 (amended): the endpoint increments `view_count` for every
known id regardless of status — 200 when the row is `Downloaded`, 404 with
the increment already committed when it is not; only an unknown id leaves
the catalog unchanged. -/
theorem view_endpoint_spec (c : Catalog) (idStr id : Text)
    (hid : parseUuid idStr = some id) :
    (∀ r, findVideo c id = some r →
      (findVideo (incrementViewCnt c idStr).2 id).map Row.viewCount =
        some (r.viewCount + 1) ∧
      (incrementViewCnt c idStr).1 =
        (if r.downloadStatus = .downloaded then .ok200 else .notFound)) ∧
    (findVideo c id = none → incrementViewCnt c idStr = (.notFound, c)) := by
  have hmap := findVideo_map_update c id (fun r => { r with viewCount := r.viewCount + 1 })
    (fun r => rfl)
  have hcall : incrementViewCnt c idStr =
      (match findVideo (incrementViewCount c id) id with
       | some r2 =>
         if r2.downloadStatus = .downloaded then (ViewResp.ok200, incrementViewCount c id)
         else (ViewResp.notFound, incrementViewCount c id)
       | none => (ViewResp.notFound, incrementViewCount c id)) := by
    unfold incrementViewCnt
    rw [hid]
  constructor
  · intro r hr
    have hfind : findVideo (incrementViewCount c id) id =
        some { r with viewCount := r.viewCount + 1 } := by
      rw [show incrementViewCount c id =
          (c.map fun r => if r.id = id then { r with viewCount := r.viewCount + 1 } else r)
        from rfl, hmap, hr]
      rfl
    rw [hcall, hfind]
    by_cases h : r.downloadStatus = .downloaded
    · refine ⟨?_, ?_⟩ <;> simp [h, hfind]
    · refine ⟨?_, ?_⟩ <;> simp [h, hfind]
  · intro hnone
    have hfind : findVideo (incrementViewCount c id) id = none := by
      rw [show incrementViewCount c id =
          (c.map fun r => if r.id = id then { r with viewCount := r.viewCount + 1 } else r)
        from rfl, hmap, hnone]
      rfl
    have hsame : incrementViewCount c id = c := by
      have hno : ∀ r ∈ c, ¬(r.id == id) = true := List.find?_eq_none.mp hnone
      have hpt : ∀ r ∈ c,
          (if r.id = id then { r with viewCount := r.viewCount + 1 } else r) = r := by
        intro r hr
        rw [if_neg]
        intro h
        exact hno r hr (by simp [h])
      calc incrementViewCount c id = c.map (fun r => r) := List.map_congr_left hpt
        _ = c := by simp
    rw [hcall, hfind, hsame]

/-- Witness for the amended C3: at the one-row Pending catalog the response
is 404 and the view count still rises to 1. -/
theorem view_endpoint_spec_witness :
    (findVideo (incrementViewCnt [pendingRow] vid2Id).2 vid2Id).map Row.viewCount =
      some 1 ∧
    (incrementViewCnt [pendingRow] vid2Id).1 = .notFound := by
  have h := (view_endpoint_spec [pendingRow] vid2Id vid2Id (by decide)).1 pendingRow
    (by decide)
  refine ⟨?_, ?_⟩
  · rw [h.1]
    decide
  · rw [h.2]
    decide

/-- Claim C4 (counterexample): when `File::create` fails, the worker
returns `ShouldRetry` with no catalog call at all — the row is left
`Pending`, not `Failed`, refuting the claim that every I/O error path calls
`set_download_failed` first (`tasks.rs` 202-207). -/
theorem worker_create_error_skips_failed_mark_cex :
    downloadJobTask hashStub "/data/content".data false [] sampleJob [pendingRow] =
      (.shouldRetry sampleJob, [pendingRow]) ∧
    (findVideo [pendingRow] vid2Id).map Row.downloadStatus = some .pending :=
  ⟨rfl, by decide⟩

/-- Claim C4 (amended): only a mid-stream read error calls
`set_download_failed` before returning `ShouldRetry`; a target-file
creation error and a local write error return `ShouldRetry` without
touching the row's status (the progress writes of earlier chunks remain). -/
theorem worker_io_error_paths (hashFn : List Nat → Text) (contentPath : Text)
    (j : JobM) (c : Catalog) :
    (∀ items, downloadJobTask hashFn contentPath false items j c = (.shouldRetry j, c)) ∧
    (∀ pre e rest, allWritesOk pre = true →
      downloadJobTask hashFn contentPath true (pre ++ .ioErr e :: rest) j c =
        (.shouldRetry j,
          setDownloadFailed (progressAfter j.video.id pre 0 c) j.video.id
            (fetchErrorMessage j.video e))) ∧
    (∀ pre d rest, allWritesOk pre = true →
      downloadJobTask hashFn contentPath true (pre ++ .chunk d false :: rest) j c =
        (.shouldRetry j, progressAfter j.video.id pre 0 c)) := by
  refine ⟨fun items => rfl, fun pre e rest hpre => ?_, fun pre d rest hpre => ?_⟩
  · simpa [downloadJobTask] using workerLoop_ioErr hashFn j _ pre hpre e rest 0 [] c
  · simpa [downloadJobTask] using workerLoop_writeErr hashFn j _ pre hpre d rest 0 [] c

/-- Witness for the amended C4: one good chunk, then a stream error — the
row is marked failed after the progress write, and the job retries. -/
theorem worker_io_error_paths_witness :
    downloadJobTask hashStub "/data/content".data true
        [.chunk [1, 2] true, .ioErr "eof".data] sampleJob [pendingRow] =
      (.shouldRetry sampleJob,
        setDownloadFailed
          (progressAfter sampleJob.video.id [.chunk [1, 2] true] 0 [pendingRow])
          sampleJob.video.id (fetchErrorMessage sampleJob.video "eof".data)) :=
  (worker_io_error_paths hashStub "/data/content".data sampleJob [pendingRow]).2.1
    [.chunk [1, 2] true] "eof".data [] (by decide)

/-- Claim C5 (counterexample): on a downloaded 4-byte file, the single
range `bytes=4-` is unsatisfiable (`to_satisfiable_range` yields `None`) —
yet the endpoint serves 200 OK with the full 4-byte body instead of
rejecting the request (`api/user.rs` 211-228 and 278-282). -/
theorem unsatisfiable_range_full_body_cex :
    toSatisfiableRange (.fromStart 4) 4 = none ∧
      getContent [downloadedRow] vid2Id 4 (some [.fromStart 4]) = .okFull 4 :=
  ⟨rfl, by decide⟩

/-- Claim C5 (amended): an unsatisfiable single byte range is not rejected:
it is ignored, and the endpoint responds exactly as if no Range header had
been sent — 200 OK streaming the whole file. -/
theorem unsatisfiable_range_ignored (c : Catalog) (idStr id : Text) (r : Row)
    (len : Nat) (spec : ByteRangeSpec)
    (hid : parseUuid idStr = some id) (hr : findVideo c id = some r)
    (hdl : r.downloadStatus = .downloaded)
    (hrange : toSatisfiableRange spec len = none) :
    getContent c idStr len (some [spec]) = .okFull len := by
  simp [getContent, hid, hr, hdl, hrange]

/-- Witness for the amended C5 at the concrete 4-byte file. -/
theorem unsatisfiable_range_ignored_witness :
    getContent [downloadedRow] vid2Id 4 (some [.fromStart 4]) = .okFull 4 :=
  unsatisfiable_range_ignored [downloadedRow] vid2Id vid2Id downloadedRow 4
    (.fromStart 4) (by decide) (by decide) (by decide) rfl

/-- Claim C6 (counterexample): raw persisted bytes with whitespace parse to
a manifest — so they are exactly what `check_updates` persists to disk and
then publishes in memory — yet the endpoint body for that published
manifest differs from the raw bytes: `get_manifest` re-serializes
(`serde_json::to_string`) instead of reading the persisted file. -/
theorem manifest_latest_reserializes_cex :
    parseManifestBytes rawManifestBytes = some emptyManifest ∧
      getManifestBody (some emptyManifest) ≠ rawManifestBytes :=
  ⟨by decide, by decide⟩

/-- Claim C6 (amended): `GET /api/manifest/latest` returns the compact
re-serialization of the in-memory published manifest (or an empty body when
none is published) — parse-equivalent to the persisted document, but not
byte-for-byte equal to it in general. -/
theorem manifest_latest_body (m : ManifestFile)
    (hm : validManifestLeavesB m = true) :
    getManifestBody (some m) = jsonRender (manifestToJson m) ∧
      manifestFromJson (manifestToJson m) = some m ∧
      getManifestBody none = [] :=
  ⟨rfl, manifestFromJson_manifestToJson m hm, rfl⟩

/-- Witness for the amended C6 at the concrete manifest. -/
theorem manifest_latest_body_witness :
    getManifestBody (some emptyManifest) = jsonRender (manifestToJson emptyManifest) ∧
      manifestFromJson (manifestToJson emptyManifest) = some emptyManifest ∧
      getManifestBody none = [] :=
  manifest_latest_body emptyManifest (by decide)

/-- Claim C7: the poller promotes a fetched-and-parsed manifest iff the
current one is absent, or differs from it and is strictly older by calendar
date; and a manifest dated less than or equal to the current one is never
promoted, whatever its version numbers. -/
theorem manifest_promotion_iff (cur : Option ManifestFile) (newM : ManifestFile)
    (saveOk : Bool) :
    (saveOk = true →
      (checkUpdates cur newM saveOk = .promoted ↔
        (cur = none ∨ ∃ c, cur = some c ∧ c ≠ newM ∧ dateLt c.date newM.date = true))) ∧
    (∀ c, cur = some c → dateLe newM.date c.date = true →
      checkUpdates cur newM saveOk ≠ .promoted) := by
  constructor
  · rintro rfl
    cases cur with
    | none => simp [checkUpdates, isMoreRecentManifest]
    | some c =>
      by_cases hne : c = newM
      · subst hne
        simp [checkUpdates, isMoreRecentManifest]
      · by_cases hlt : dateLt c.date newM.date = true
        · simp [checkUpdates, isMoreRecentManifest, hne, hlt]
        · simp [checkUpdates, isMoreRecentManifest, hne, hlt]
  · rintro c rfl hle
    have hnlt := dateLe_not_lt hle
    simp [checkUpdates, isMoreRecentManifest, hnlt]

/-- Witness for C7: the one-day-newer manifest is promoted; swapping the
two (a rollback, or an equal date) is not. -/
theorem manifest_promotion_iff_witness :
    checkUpdates (some sampleManifest) sampleNewer true = .promoted ∧
      checkUpdates (some sampleNewer) sampleManifest true ≠ .promoted := by
  constructor
  · exact ((manifest_promotion_iff (some sampleManifest) sampleNewer true).1 rfl).mpr
      (Or.inr ⟨sampleManifest, rfl, by decide, by decide⟩)
  · exact (manifest_promotion_iff (some sampleNewer) sampleManifest true).2
      sampleNewer rfl (by decide)

/-- Claim C8: for every valid manifest (well-formed version, sha256, date,
URI, unique IDs across the document), `parse(serialize(m)) == m`, with
structural equality on all fields including the order of sections and of
content within each section. -/
theorem manifest_parse_serialize_roundtrip (m : ManifestFile)
    (hm : validManifestB m = true) :
    manifestFromJson (manifestToJson m) = some m := by
  apply manifestFromJson_manifestToJson
  simp only [validManifestB, Bool.and_eq_true] at hm
  exact hm.1

/-- Witness for C8 at the two-section sample manifest. -/
theorem manifest_parse_serialize_roundtrip_witness :
    validManifestB sampleManifest = true ∧
      manifestFromJson (manifestToJson sampleManifest) = some sampleManifest :=
  ⟨by decide, manifest_parse_serialize_roundtrip sampleManifest (by decide)⟩

/-- Claim C9 (counterexample): insert a row with `file_size = 2`, then let
the worker report progress with its running counter at 5 (a stream longer
than the manifest's `file_size`): the row is now `InProgress` with
`downloaded_bytes = 5 > file_size = 2` — `update_download_progress` stores
the counter unclamped (`db/mod.rs` 307-327; its doc comment says the caller
"should" keep it smaller, and the worker does not check). -/
theorem catalog_size_invariant_cex :
    (findVideo (applyOps [] [.insert vid2Id "v".data 2, .progress vid2Id 5]) vid2Id).map
        (fun r => (r.downloadStatus, r.downloadedSize, r.fileSize)) =
      some (.inProgress, 5, 2) ∧
    ¬ ∀ r ∈ applyOps [] [.insert vid2Id "v".data 2, .progress vid2Id 5],
        rowSizeInvariant r :=
  ⟨by decide, by decide⟩

/-- Claim C9 (amended): `0 ≤ downloaded_bytes` holds by representation, and
`downloaded_bytes ≤ file_size` holds at every state reached by a sequence
of catalog operations provided each `update_download_progress` call stays
within the target row's `file_size` — which the worker guarantees only when
the stream yields at most `file_size` bytes; the source applies no clamp. -/
theorem catalog_size_invariant_preserved (c : Catalog) (ops : List CatalogOp)
    (hc : ∀ r ∈ c, rowSizeInvariant r) (hs : opsSafe c ops) :
    ∀ r ∈ applyOps c ops, rowSizeInvariant r := by
  induction ops generalizing c with
  | nil => simpa [applyOps] using hc
  | cons op ops ih =>
    exact ih (applyOp c op) (applyOp_preserves_size_invariant c op hc hs.1) hs.2

/-- Witness for the amended C9: a bounded progress write keeps the
invariant on the concrete resulting row. -/
theorem catalog_size_invariant_preserved_witness :
    rowSizeInvariant ⟨vid2Id, "v".data, 2, 1, .inProgress, [], [], 0⟩ :=
  catalog_size_invariant_preserved [] [.insert vid2Id "v".data 2, .progress vid2Id 1]
    (by simp) ⟨trivial, by decide, trivial⟩
    ⟨vid2Id, "v".data, 2, 1, .inProgress, [], [], 0⟩ (by decide)

/-- Claim C10: `set_downloaded(id, path)` turns every row carrying `id`
into `Downloaded` with `file_path = path`, `downloaded_size` copied from
that row's `file_size` and an empty message, leaving its `id`, `name`,
`file_size` and `view_count` — and every other row — unchanged
(positionally, via `Forall₂`). -/
theorem set_downloaded_frame (c : Catalog) (id path : Text) :
    List.Forall₂ (fun r0 r1 =>
      (r0.id = id →
        r1.downloadStatus = .downloaded ∧ r1.filePath = path ∧
        r1.downloadedSize = r0.fileSize ∧ r1.message = [] ∧
        r1.id = r0.id ∧ r1.name = r0.name ∧ r1.fileSize = r0.fileSize ∧
        r1.viewCount = r0.viewCount) ∧
      (r0.id ≠ id → r1 = r0)) c (setDownloaded c id path) := by
  induction c with
  | nil => exact List.Forall₂.nil
  | cons r c ih =>
    have hcons : setDownloaded (r :: c) id path =
        (if r.id = id then
          { r with downloadStatus := .downloaded, downloadedSize := r.fileSize,
                   message := [], filePath := path }
         else r) :: setDownloaded c id path := rfl
    rw [hcons]
    refine List.Forall₂.cons ⟨?_, ?_⟩ ih
    · intro h0
      rw [if_pos h0]
      exact ⟨rfl, rfl, rfl, rfl, rfl, rfl, rfl, rfl⟩
    · intro hne
      rw [if_neg hne]

/-- Witness for C10 at a concrete two-row catalog (one matching row, one
unrelated row). -/
theorem set_downloaded_frame_witness :
    List.Forall₂ (fun r0 r1 =>
      (r0.id = vid2Id →
        r1.downloadStatus = .downloaded ∧ r1.filePath = "/p.mp4".data ∧
        r1.downloadedSize = r0.fileSize ∧ r1.message = [] ∧
        r1.id = r0.id ∧ r1.name = r0.name ∧ r1.fileSize = r0.fileSize ∧
        r1.viewCount = r0.viewCount) ∧
      (r0.id ≠ vid2Id → r1 = r0))
      [pendingRow, otherRow]
      (setDownloaded [pendingRow, otherRow] vid2Id "/p.mp4".data) :=
  set_downloaded_frame [pendingRow, otherRow] vid2Id "/p.mp4".data

end VDS
